import Mathlib

/-!
Verification development for the nix-gl-host host-library resolution engine.

The repository's `src/main.rs` contains the data-model skeleton: the `CLI`
argument structure, the `ResolvedLib`, `HostLibraryPath` and `CacheDirContent`
structures, and a `main` that only parses command-line arguments.  The
operations of the engine (classifier, scanner, cache, composer) are described
by the design document but are not implemented in the repository; they are
modelled here from the design document's words, each such definition marked
`Modelled from the spec:`.
-/

namespace NixGlHost

/-! ## Data model, translated from `src/main.rs` -/

/-- Translated from `struct CLI` in `src/main.rs`.  `driver_directory` is an
optional option (short `-d`, long `--driver-directory`), `print_ld_library_path`
a boolean flag (short `-p`, long `--print-ld-library-path`) defaulting to
`false`, `nix_binary_path` a required positional argument and `args` the
trailing positional arguments. -/
structure CLI where
  driver_directory : Option String
  print_ld_library_path : Bool
  nix_binary_path : String
  args : List String
deriving DecidableEq

/-- Translated from `struct ResolvedLib` in `src/main.rs`: a GPU host library,
identified through its fullpath, last modification date and length.
`SystemTime` and `u64` are modelled as `Nat` (no arithmetic is performed on
them; they are only compared for equality). -/
structure ResolvedLib where
  name : String
  fullpath : String
  last_modification : Nat
  len : Nat
deriving DecidableEq

/-- Translated from `struct HostLibraryPath` in `src/main.rs`: a host library
path entry with its categorized library collections. -/
structure HostLibraryPath where
  fullpath : String
  glx : List ResolvedLib
  egl : List ResolvedLib
  cuda : List ResolvedLib
  generic : List ResolvedLib
deriving DecidableEq

/-- Translated from `struct CacheDirContent` in `src/main.rs`: everything
living in the nix-gl-host cache. -/
structure CacheDirContent where
  paths : List HostLibraryPath
deriving DecidableEq

/-! ## Command-line parsing

`main` in `src/main.rs` is `let _cli_args = CLI::parse();`.  The parse
behaviour is the one declared by the `clap` derive attributes on `CLI`:
recognised options consume their value, the flag sets the boolean, `--` ends
option parsing, an unknown option-looking token is a parse error, the first
positional is `nix_binary_path` and the remaining positionals are `args`;
a missing required positional is a parse error (clap then exits the process
before `main`'s body continues). -/

/-- A token that clap treats as an option: it starts with `-` and is not the
bare `-` (which clap treats as a positional value). -/
def isFlagLike (t : String) : Bool :=
  match t.toList with
  | '-' :: _ :: _ => true
  | _ => false

/-- Intermediate state of the argument parser. -/
structure ParseState where
  dd : Option String
  print : Bool
  seenD : Bool
  seenP : Bool
  pendingD : Bool
  rawMode : Bool
  pos : List String
deriving DecidableEq

/-- Initial parser state: no options seen, no positionals collected. -/
def initState : ParseState :=
  { dd := none, print := false, seenD := false, seenP := false,
    pendingD := false, rawMode := false, pos := [] }

/-- One-token-at-a-time argument scan following clap's declared behaviour for
the `CLI` structure. -/
def parseTokens : List String → ParseState → Except String ParseState
  | [], st => if st.pendingD then .error "missing value for --driver-directory" else .ok st
  | t :: rest, st =>
    if st.pendingD then
      parseTokens rest { st with dd := some t, pendingD := false }
    else if st.rawMode then
      parseTokens rest { st with pos := st.pos ++ [t] }
    else if t = "--" then
      parseTokens rest { st with rawMode := true }
    else if t = "-d" ∨ t = "--driver-directory" then
      if st.seenD then .error "duplicate --driver-directory"
      else parseTokens rest { st with seenD := true, pendingD := true }
    else if t = "-p" ∨ t = "--print-ld-library-path" then
      if st.seenP then .error "duplicate --print-ld-library-path"
      else parseTokens rest { st with print := true, seenP := true }
    else if isFlagLike t then .error "unknown option"
    else parseTokens rest { st with pos := st.pos ++ [t] }

/-- Parse a full argument list (the arguments after the program name) into a
`CLI` value, as `CLI::parse` does in `src/main.rs`. -/
def parseCLI (argv : List String) : Except String CLI :=
  match parseTokens argv initState with
  | .error e => .error e
  | .ok st =>
    match st.pos with
    | [] => .error "missing required argument nix_binary_path"
    | b :: rest => .ok ⟨st.dd, st.print, b, rest⟩

/-! ## The program's `main`

`fn main()` in `src/main.rs` is a single statement, `let _cli_args =
CLI::parse();`.  We model the observable world as the host filesystem together
with the cache-file content, and `main` as a function of the argument list and
the world: it parses, discards the result, and touches nothing else.  On a
parse failure clap terminates the process, modelled by the `Except.error`
result. -/

/-- Metadata of one directory entry as the filesystem reports it: base name,
modification time, byte length, and whether its metadata is readable. -/
structure FileMeta where
  name : String
  mtime : Nat
  len : Nat
  readable : Bool
deriving DecidableEq

/-- The host filesystem, as the engine observes it: an association list from
directory path to listing.  A directory that does not exist or cannot be
listed is simply absent. -/
structure FS where
  dirs : List (String × List FileMeta)
deriving DecidableEq

/-- List a directory: `none` when the directory does not exist or cannot be
listed. -/
def FS.listDir (fs : FS) (d : String) : Option (List FileMeta) :=
  (fs.dirs.find? (fun p => p.1 = d)).map (fun p => p.2)

/-- An on-disk cache record, one field of one structured record.  The design
document leaves the serialization format to the storage backend and only
requires sequential structured records, so the persisted cache is modelled as
a sequence of such fields. -/
inductive Record where
  | nat : Nat → Record
  | str : String → Record
deriving DecidableEq

/-- The whole observable world of one invocation: the host filesystem and the
cache-file content (`none` when the cache file is missing). -/
structure World where
  fs : FS
  cache : Option (List Record)
deriving DecidableEq

/-- Translated from `fn main()` in `src/main.rs`: parse the command-line
arguments, bind the result to an unused variable, and return.  The world is
threaded through explicitly to record that `main` performs no filesystem
access, no cache access and no process launch. -/
def main (argv : List String) (w : World) : Except String Unit × World :=
  ((parseCLI argv).map (fun _ => ()), w)

/-! ## LibraryClassifier -/

/-- The four functional categories of host libraries. -/
inductive Category where
  | GLX
  | EGL
  | CUDA
  | Generic
deriving DecidableEq

/-- Precedence rank of a category; lower rank wins when a name matches several
patterns (GLX > EGL > CUDA > Generic). -/
def Category.rank : Category → Nat
  | .GLX => 0
  | .EGL => 1
  | .CUDA => 2
  | .Generic => 3

/-- Leading-match test over character lists: does `pat` occur at the start of
`s`? -/
def charsMatch : List Char → List Char → Bool
  | [], _ => true
  | _ :: _, [] => false
  | p :: ps, c :: cs => p = c && charsMatch ps cs

/-- Does the file name start with the given pattern? -/
def nameMatches (pat name : String) : Bool :=
  charsMatch pat.toList name.toList

/-- Modelled from the spec: the classifier's pattern table is not implemented
in the repository.  The design document only requires "a small fixed set of
known substrings" per category; these are the usual GLX driver library
names. -/
def glxPatterns : List String := ["libGLX", "libGL.so"]

/-- Modelled from the spec: EGL driver library name patterns (not implemented
in the repository). -/
def eglPatterns : List String := ["libEGL"]

/-- Modelled from the spec: CUDA driver library name patterns (not implemented
in the repository). -/
def cudaPatterns : List String := ["libcuda", "libnvidia-ptxjitcompiler"]

/-- Modelled from the spec: generic helper library name patterns (not
implemented in the repository). -/
def genericPatterns : List String := ["libnvidia-"]

/-- The pattern table of one category. -/
def Category.patterns : Category → List String
  | .GLX => glxPatterns
  | .EGL => eglPatterns
  | .CUDA => cudaPatterns
  | .Generic => genericPatterns

/-- Does the file name match some pattern of the category? -/
def matchesCategory (c : Category) (name : String) : Bool :=
  c.patterns.any (fun pat => nameMatches pat name)

/-- Modelled from the spec: `classify(filename) -> Category | None`, a pure
function of the file's base name; a name matching several category patterns is
resolved by the fixed precedence order GLX > EGL > CUDA > Generic, and a name
matching no pattern yields `none`.  Not implemented in the repository. -/
def classify (name : String) : Option Category :=
  if matchesCategory .GLX name then some .GLX
  else if matchesCategory .EGL name then some .EGL
  else if matchesCategory .CUDA name then some .CUDA
  else if matchesCategory .Generic name then some .Generic
  else none

/-! ## HostPathScanner -/

/-- The `ResolvedLib` identity formed from a directory and a file's metadata:
the name is the base name, the fullpath joins directory and name, and the
timestamp and length come from the metadata probe. -/
def mkLib (dir : String) (f : FileMeta) : ResolvedLib :=
  ⟨f.name, dir ++ "/" ++ f.name, f.mtime, f.len⟩

/-- An empty `HostLibraryPath` entry for a directory. -/
def emptyEntry (dir : String) : HostLibraryPath :=
  ⟨dir, [], [], [], []⟩

/-- Modelled from the spec: build one `HostLibraryPath` entry from a directory
listing — skip unreadable files, classify each remaining file by name, and
append its identity to the matching collection in enumeration order.  The
scanner is not implemented in the repository. -/
def scanFiles (dir : String) (files : List FileMeta) : HostLibraryPath :=
  let fs := files.filter (fun f => f.readable)
  { fullpath := dir
    glx := (fs.filter (fun f => classify f.name = some .GLX)).map (mkLib dir)
    egl := (fs.filter (fun f => classify f.name = some .EGL)).map (mkLib dir)
    cuda := (fs.filter (fun f => classify f.name = some .CUDA)).map (mkLib dir)
    generic := (fs.filter (fun f => classify f.name = some .Generic)).map (mkLib dir) }

/-- Modelled from the spec: scan one directory; a directory that does not
exist or cannot be listed produces an empty entry, not an error. -/
def scanDir (fs : FS) (dir : String) : HostLibraryPath :=
  match fs.listDir dir with
  | none => emptyEntry dir
  | some files => scanFiles dir files

/-- Modelled from the spec: `scan(directories) -> ResolutionSnapshot`, one
entry per configured directory, in configured order.  Not implemented in the
repository. -/
def scan (fs : FS) (dirs : List String) : CacheDirContent :=
  ⟨dirs.map (scanDir fs)⟩

/-! ## ResolutionCache: persistence

Modelled from the spec: the cache persistence pair is not implemented in the
repository.  The design document requires a sequential write and read of
structured records with a version tag, where any content that does not parse
back into a valid snapshot (truncation, malformed records, version mismatch)
must be treated as `Absent`. -/

/-- Version tag written at the front of the cache so that format upgrades
force a rescan. -/
def cacheVersion : Nat := 1

/-- Serialize one library identity as four records. -/
def encLib (l : ResolvedLib) : List Record :=
  [.str l.name, .str l.fullpath, .nat l.last_modification, .nat l.len]

/-- Serialize a counted list of library identities. -/
def encLibs (ls : List ResolvedLib) : List Record :=
  .nat ls.length :: (ls.map encLib).flatten

/-- Serialize one directory entry. -/
def encEntry (e : HostLibraryPath) : List Record :=
  .str e.fullpath ::
    (encLibs e.glx ++ encLibs e.egl ++ encLibs e.cuda ++ encLibs e.generic)

/-- Serialize a whole snapshot: version tag, entry count, entries. -/
def encode (c : CacheDirContent) : List Record :=
  .nat cacheVersion :: .nat c.paths.length :: (c.paths.map encEntry).flatten

/-- Read one natural-number record. -/
def readNat : List Record → Option (Nat × List Record)
  | .nat n :: rest => some (n, rest)
  | _ => none

/-- Read one string record. -/
def readStr : List Record → Option (String × List Record)
  | .str s :: rest => some (s, rest)
  | _ => none

/-- Read one library identity. -/
def readLib (ts : List Record) : Option (ResolvedLib × List Record) :=
  match readStr ts with
  | none => none
  | some (n, t1) =>
    match readStr t1 with
    | none => none
    | some (fp, t2) =>
      match readNat t2 with
      | none => none
      | some (m, t3) =>
        match readNat t3 with
        | none => none
        | some (l, t4) => some (⟨n, fp, m, l⟩, t4)

/-- Read `k` library identities. -/
def readLibList : Nat → List Record → Option (List ResolvedLib × List Record)
  | 0, ts => some ([], ts)
  | k + 1, ts =>
    match readLib ts with
    | none => none
    | some (l, t1) =>
      match readLibList k t1 with
      | none => none
      | some (ls, t2) => some (l :: ls, t2)

/-- Read a counted list of library identities. -/
def readLibs (ts : List Record) : Option (List ResolvedLib × List Record) :=
  match readNat ts with
  | none => none
  | some (k, t1) => readLibList k t1

/-- Read one directory entry. -/
def readEntry (ts : List Record) : Option (HostLibraryPath × List Record) :=
  match readStr ts with
  | none => none
  | some (fp, t1) =>
    match readLibs t1 with
    | none => none
    | some (g, t2) =>
      match readLibs t2 with
      | none => none
      | some (e, t3) =>
        match readLibs t3 with
        | none => none
        | some (c, t4) =>
          match readLibs t4 with
          | none => none
          | some (gen, t5) => some (⟨fp, g, e, c, gen⟩, t5)

/-- Read `k` directory entries. -/
def readEntryList : Nat → List Record → Option (List HostLibraryPath × List Record)
  | 0, ts => some ([], ts)
  | k + 1, ts =>
    match readEntry ts with
    | none => none
    | some (e, t1) =>
      match readEntryList k t1 with
      | none => none
      | some (es, t2) => some (e :: es, t2)

/-- Read a whole snapshot: version tag, entry count, entries. -/
def readSnap (ts : List Record) : Option (CacheDirContent × List Record) :=
  match readNat ts with
  | none => none
  | some (v, t1) =>
    if v = cacheVersion then
      match readNat t1 with
      | none => none
      | some (k, t2) =>
        match readEntryList k t2 with
        | none => none
        | some (es, t3) => some (⟨es⟩, t3)
    else none

/-- Parse persisted cache content into a snapshot.  Fails (yielding a forced
rescan) on a version mismatch, malformed records, truncation, or trailing
garbage. -/
def decode (ts : List Record) : Option CacheDirContent :=
  match readSnap ts with
  | some (c, []) => some c
  | _ => none

/-- Result of loading the cache: either no usable snapshot or a loaded one. -/
inductive LoadResult where
  | Absent
  | Loaded : CacheDirContent → LoadResult
deriving DecidableEq

/-- Modelled from the spec: `load() -> ResolutionSnapshot | Absent`.  A missing
cache file and cache content that does not parse both yield `Absent`; nothing
else is ever reported.  Not implemented in the repository. -/
def load (cache : Option (List Record)) : LoadResult :=
  match cache with
  | none => .Absent
  | some ts =>
    match decode ts with
    | some c => .Loaded c
    | none => .Absent

/-- Modelled from the spec: `store(snapshot)` atomically replaces the cache
content with the serialized snapshot.  Not implemented in the repository. -/
def store (c : CacheDirContent) (_old : Option (List Record)) : Option (List Record) :=
  some (encode c)

/-! ## ResolutionCache: validation -/

/-- Result of validating a cached snapshot against the filesystem. -/
inductive VResult where
  | Fresh
  | Stale
deriving DecidableEq

/-- All identities recorded in one directory entry, across the four
categories. -/
def entryLibs (e : HostLibraryPath) : List ResolvedLib :=
  e.glx ++ e.egl ++ e.cuda ++ e.generic

/-- The fullpaths recorded in one directory entry. -/
def recordedFullpaths (e : HostLibraryPath) : List String :=
  (entryLibs e).map (fun l => l.fullpath)

/-- Cheap metadata re-probe of one recorded identity: the directory listing
must still contain a readable file at the recorded fullpath with the recorded
modification time and length. -/
def libStillMatches (fs : FS) (dir : String) (l : ResolvedLib) : Bool :=
  match fs.listDir dir with
  | none => false
  | some files =>
    files.any (fun f =>
      f.readable && dir ++ "/" ++ f.name = l.fullpath
                 && f.mtime = l.last_modification && f.len = l.len)

/-- Re-list one directory to detect new files: every readable file that
classifies into a tracked category must already be recorded in the entry.  A
directory that cannot be listed contributes no new files. -/
def noNewFiles (fs : FS) (e : HostLibraryPath) : Bool :=
  match fs.listDir e.fullpath with
  | none => true
  | some files =>
    files.all (fun f =>
      !f.readable || (classify f.name).isNone
        || (recordedFullpaths e).contains (e.fullpath ++ "/" ++ f.name))

/-- Modelled from the spec: `validate(snapshot, directories) -> Fresh | Stale`.
Fresh requires: (a) the configured directories are unchanged and in the same
order; (b) every recorded identity still metadata-matches on disk; (c) no
configured directory contains an unrecorded file that classifies into a
tracked category.  Not implemented in the repository. -/
def validate (fs : FS) (snap : CacheDirContent) (dirs : List String) : VResult :=
  if snap.paths.map (fun e => e.fullpath) = dirs
      && snap.paths.all (fun e => (entryLibs e).all (libStillMatches fs e.fullpath))
      && snap.paths.all (noNewFiles fs)
  then .Fresh else .Stale

/-! ## LibraryPathComposer -/

/-- Does the entry contain at least one library of the category? -/
def hasLibOf (e : HostLibraryPath) (c : Category) : Bool :=
  match c with
  | .GLX => !e.glx.isEmpty
  | .EGL => !e.egl.isEmpty
  | .CUDA => !e.cuda.isEmpty
  | .Generic => !e.generic.isEmpty

/-- Keep the first occurrence of each element, dropping later duplicates;
`seen` accumulates the elements already emitted. -/
def dedupFirstAux : List String → List String → List String
  | [], _ => []
  | x :: xs, seen =>
    if x ∈ seen then dedupFirstAux xs seen
    else x :: dedupFirstAux xs (x :: seen)

/-- Deduplicate a list keeping first-seen order. -/
def dedupFirst (l : List String) : List String :=
  dedupFirstAux l []

/-- Modelled from the spec: `compose(snapshot, categories)` emits the distinct
directories that contain at least one library of a requested category, in the
snapshot's original configured directory order, deduplicated preserving
first-seen order; an empty result is not an error.  Not implemented in the
repository. -/
def compose (snap : CacheDirContent) (cats : List Category) : List String :=
  dedupFirst
    ((snap.paths.filter (fun e => cats.any (hasLibOf e))).map (fun e => e.fullpath))

/-! ## Derived notions used by the theorems -/

/-- Modelled from the spec: the library-revision equivalence is documented on
`struct ResolvedLib` but no comparison is implemented in the repository.  Two
identities denote the same library revision iff `fullpath`,
`last_modification` and `len` all match. -/
def sameRevision (a b : ResolvedLib) : Bool :=
  decide (a.fullpath = b.fullpath) && decide (a.last_modification = b.last_modification)
    && decide (a.len = b.len)

/-- Condition (a) of the freshness rule: the configured directory sequence is
unchanged, in the same order, from the one recorded in the snapshot. -/
def dirsUnchanged (snap : CacheDirContent) (dirs : List String) : Prop :=
  snap.paths.map (fun e => e.fullpath) = dirs

/-- Condition (b) of the freshness rule: every recorded identity still
metadata-matches the file on disk. -/
def allRecordedMatch (fs : FS) (snap : CacheDirContent) : Prop :=
  ∀ e ∈ snap.paths, ∀ l ∈ entryLibs e, libStillMatches fs e.fullpath l = true

/-- Condition (c) of the freshness rule: no configured directory contains a
readable file, absent from the recorded collections, that classifies into a
tracked category. -/
def noUntrackedNewFiles (fs : FS) (snap : CacheDirContent) : Prop :=
  ∀ e ∈ snap.paths, ∀ files, fs.listDir e.fullpath = some files →
    ∀ f ∈ files, f.readable = true → (classify f.name).isSome = true →
      (e.fullpath ++ "/" ++ f.name) ∈ recordedFullpaths e

/-! ## Theorems -/

/-- C1: for every invocation, `main` only parses the command-line arguments:
the world (host filesystem and cache file) is returned untouched, and the
outcome is exactly the parse outcome with its value discarded — no scanning,
caching, composing, filesystem access or process launch happens.  None of the
engine's operations are invoked by the program. -/
theorem main_only_parses (argv : List String) (w : World) :
    (main argv w).2 = w ∧ (main argv w).1 = (parseCLI argv).map (fun _ => ()) :=
  ⟨rfl, rfl⟩

/-- C2: two `ResolvedLib` identities denote the same library revision iff
their `fullpath`, `last_modification` and `len` fields are all equal, and the
`name` field plays no role in the equivalence (file contents do not appear in
the identity at all). -/
theorem sameRevision_iff (a b : ResolvedLib) :
    (sameRevision a b = true ↔
      a.fullpath = b.fullpath ∧ a.last_modification = b.last_modification ∧ a.len = b.len)
    ∧ ∀ n n' : String,
        sameRevision { a with name := n } { b with name := n' } = sameRevision a b := by
  refine ⟨?_, fun n n' => rfl⟩
  simp [sameRevision, and_assoc]

/-- Helper: on a run of tokens none of which looks like an option, the
argument scanner just appends them all to the collected positionals. -/
theorem parseTokens_positionals (ts : List String) :
    ∀ st : ParseState, (∀ t ∈ ts, isFlagLike t = false) →
      st.pendingD = false → st.rawMode = false →
      parseTokens ts st = .ok { st with pos := st.pos ++ ts } := by
  induction ts with
  | nil =>
    intro st _ hp _
    obtain ⟨dd, pr, sD, sP, pD, rM, pos⟩ := st
    simp only at hp
    subst hp
    simp [parseTokens]
  | cons t rest ih =>
    intro st h hp hr
    have ht : isFlagLike t = false := h t (List.mem_cons_self t rest)
    have htd : ¬(t = "--") := by
      intro e; subst e; exact absurd ht (by decide)
    have htdd : ¬(t = "-d" ∨ t = "--driver-directory") := by
      rintro (e | e) <;> (subst e; exact absurd ht (by decide))
    have htp : ¬(t = "-p" ∨ t = "--print-ld-library-path") := by
      rintro (e | e) <;> (subst e; exact absurd ht (by decide))
    have hstep : parseTokens (t :: rest) st
        = parseTokens rest { st with pos := st.pos ++ [t] } := by
      simp [parseTokens, hp, hr, htd, htdd, htp, ht]
    rw [hstep,
      ih { st with pos := st.pos ++ [t] } (fun x hx => h x (List.mem_cons_of_mem t hx)) hp hr]
    simp

/-- C10: at the command-line interface, `driver_directory` is `none` when the
option is not given, `print_ld_library_path` defaults to `false` when the flag
is absent, the trailing positional arguments are collected unchanged into
`args`, and an argument list without the required positional
`nix_binary_path` makes parsing fail, so `main` terminates with a parse error
without running further. -/
theorem cli_contract :
    (∀ bin args, isFlagLike bin = false → (∀ a ∈ args, isFlagLike a = false) →
        parseCLI (bin :: args) = .ok ⟨none, false, bin, args⟩)
    ∧ parseCLI [] = .error "missing required argument nix_binary_path"
    ∧ ∀ w : World,
        (main [] w).1 = .error "missing required argument nix_binary_path"
          ∧ (main [] w).2 = w := by
  refine ⟨?_, rfl, fun w => ⟨rfl, rfl⟩⟩
  intro bin args hbin hargs
  have h : parseTokens (bin :: args) initState
      = .ok { initState with pos := initState.pos ++ (bin :: args) } := by
    apply parseTokens_positionals
    · intro t htm
      rcases List.mem_cons.mp htm with e | e
      · subst e; exact hbin
      · exact hargs t e
    · rfl
    · rfl
  unfold parseCLI
  rw [h]
  simp [initState]

/-- Witness for C10 at a concrete argument list. -/
theorem cli_contract_witness :
    parseCLI ["app", "x", "y"] = .ok ⟨none, false, "app", ["x", "y"]⟩ ∧
    parseCLI [] = .error "missing required argument nix_binary_path" :=
  ⟨cli_contract.1 "app" ["x", "y"] (by decide) (by decide), cli_contract.2.1⟩

/-- C6: `classify` is total and exclusive over matched names and resolves
multi-pattern matches by the fixed precedence order GLX > EGL > CUDA >
Generic: it returns a category exactly when that category matches the name
and has minimal precedence rank among all matching categories.  In particular
a name matching more than one pattern gets exactly the precedence-first
category. -/
theorem classify_precedence (name : String) (cat : Category) :
    classify name = some cat ↔
      (matchesCategory cat name = true ∧
        ∀ c : Category, matchesCategory c name = true → cat.rank ≤ c.rank) := by
  by_cases hg : matchesCategory .GLX name = true
  · have hcl : classify name = some .GLX := by simp [classify, hg]
    rw [hcl]
    constructor
    · intro h
      cases h
      exact ⟨hg, fun c _ => Nat.zero_le _⟩
    · rintro ⟨hm, hmin⟩
      have h0 : cat.rank ≤ Category.rank .GLX := hmin .GLX hg
      cases cat with
      | GLX => rfl
      | EGL => exact absurd h0 (by decide)
      | CUDA => exact absurd h0 (by decide)
      | Generic => exact absurd h0 (by decide)
  · by_cases he : matchesCategory .EGL name = true
    · have hcl : classify name = some .EGL := by simp [classify, hg, he]
      rw [hcl]
      constructor
      · intro h
        cases h
        refine ⟨he, fun c hc => ?_⟩
        cases c with
        | GLX => exact absurd hc hg
        | EGL => exact Nat.le_refl _
        | CUDA => exact by decide
        | Generic => exact by decide
      · rintro ⟨hm, hmin⟩
        have h1 : cat.rank ≤ Category.rank .EGL := hmin .EGL he
        cases cat with
        | GLX => exact absurd hm hg
        | EGL => rfl
        | CUDA => exact absurd h1 (by decide)
        | Generic => exact absurd h1 (by decide)
    · by_cases hc : matchesCategory .CUDA name = true
      · have hcl : classify name = some .CUDA := by simp [classify, hg, he, hc]
        rw [hcl]
        constructor
        · intro h
          cases h
          refine ⟨hc, fun c hcm => ?_⟩
          cases c with
          | GLX => exact absurd hcm hg
          | EGL => exact absurd hcm he
          | CUDA => exact Nat.le_refl _
          | Generic => exact by decide
        · rintro ⟨hm, hmin⟩
          have h2 : cat.rank ≤ Category.rank .CUDA := hmin .CUDA hc
          cases cat with
          | GLX => exact absurd hm hg
          | EGL => exact absurd hm he
          | CUDA => rfl
          | Generic => exact absurd h2 (by decide)
      · by_cases hgen : matchesCategory .Generic name = true
        · have hcl : classify name = some .Generic := by simp [classify, hg, he, hc, hgen]
          rw [hcl]
          constructor
          · intro h
            cases h
            refine ⟨hgen, fun c hcm => ?_⟩
            cases c with
            | GLX => exact absurd hcm hg
            | EGL => exact absurd hcm he
            | CUDA => exact absurd hcm hc
            | Generic => exact Nat.le_refl _
          · rintro ⟨hm, hmin⟩
            cases cat with
            | GLX => exact absurd hm hg
            | EGL => exact absurd hm he
            | CUDA => exact absurd hm hc
            | Generic => rfl
        · have hcl : classify name = none := by simp [classify, hg, he, hc, hgen]
          rw [hcl]
          constructor
          · intro h
            cases h
          · rintro ⟨hm, _⟩
            cases cat with
            | GLX => exact absurd hm hg
            | EGL => exact absurd hm he
            | CUDA => exact absurd hm hc
            | Generic => exact absurd hm hgen

/-- Witness for C6: `libnvidia-ptxjitcompiler.so.1` matches both the CUDA and
the Generic pattern tables and classifies as CUDA, the precedence-first of the
two. -/
theorem classify_precedence_witness :
    matchesCategory .CUDA "libnvidia-ptxjitcompiler.so.1" = true ∧
    matchesCategory .Generic "libnvidia-ptxjitcompiler.so.1" = true ∧
    classify "libnvidia-ptxjitcompiler.so.1" = some .CUDA :=
  ⟨by decide, by decide,
    (classify_precedence "libnvidia-ptxjitcompiler.so.1" .CUDA).mpr
      ⟨by decide, by intro c hc; cases c <;> revert hc <;> decide⟩⟩

/-- C7: the scanner is deterministic in the observed filesystem: two scans of
the same configured directory sequence over filesystems that agree on those
directories (in particular, two successive scans with no filesystem change in
between) produce equal snapshots — identical directory order and identical
per-category identity collections. -/
theorem scan_deterministic (fs1 fs2 : FS) (dirs : List String)
    (h : ∀ d ∈ dirs, fs1.listDir d = fs2.listDir d) :
    scan fs1 dirs = scan fs2 dirs := by
  unfold scan
  have : dirs.map (scanDir fs1) = dirs.map (scanDir fs2) := by
    apply List.map_congr_left
    intro d hd
    unfold scanDir
    rw [h d hd]
  rw [this]

/-- Witness for C7 at a concrete filesystem and directory list. -/
theorem scan_deterministic_witness :
    scan ⟨[("/usr/lib", [⟨"libGLX_nvidia.so.0", 5, 100, true⟩])]⟩ ["/usr/lib", "/opt/lib"]
      = scan ⟨[("/usr/lib", [⟨"libGLX_nvidia.so.0", 5, 100, true⟩])]⟩ ["/usr/lib", "/opt/lib"] :=
  scan_deterministic _ _ _ (fun _ _ => rfl)

/-- C9: the scanner never fails: it produces exactly one entry per configured
directory in configured order; a directory that does not exist or cannot be
listed yields an empty `HostLibraryPath` entry; and unreadable files inside a
readable directory are silently skipped (scanning a listing equals scanning
its readable part). -/
theorem scan_error_tolerance :
    (∀ fs : FS, ∀ d : String, fs.listDir d = none → scanDir fs d = emptyEntry d)
    ∧ (∀ dir files, scanFiles dir files = scanFiles dir (files.filter (fun f => f.readable)))
    ∧ (∀ fs dirs, (scan fs dirs).paths.map (fun e => e.fullpath) = dirs) := by
  refine ⟨?_, ?_, ?_⟩
  · intro fs d h
    unfold scanDir
    rw [h]
  · intro dir files
    unfold scanFiles
    simp [List.filter_filter]
  · intro fs dirs
    have hfp : ∀ d, (scanDir fs d).fullpath = d := by
      intro d
      unfold scanDir
      cases h : fs.listDir d with
      | none => rfl
      | some files => rfl
    simp [scan, List.map_map, Function.comp]
    exact List.map_congr_left (fun d _ => hfp d) |>.trans (List.map_id _)

/-- Witness for C9: a missing directory scans to the empty entry, and a
directory whose only file is unreadable scans the same as its readable
(empty) part. -/
theorem scan_error_tolerance_witness :
    scanDir ⟨[]⟩ "/missing" = emptyEntry "/missing" ∧
    scanFiles "/d" [⟨"libEGL.so", 1, 2, false⟩]
      = scanFiles "/d" ([⟨"libEGL.so", 1, 2, false⟩].filter (fun f => f.readable)) :=
  ⟨scan_error_tolerance.1 ⟨[]⟩ "/missing" rfl,
    scan_error_tolerance.2.1 "/d" [⟨"libEGL.so", 1, 2, false⟩]⟩

/-- Helper: deduplication yields a sublist of the input. -/
theorem dedupFirstAux_sublist (l : List String) :
    ∀ seen, (dedupFirstAux l seen).Sublist l := by
  induction l with
  | nil => intro seen; simp [dedupFirstAux]
  | cons x xs ih =>
    intro seen
    unfold dedupFirstAux
    by_cases hx : x ∈ seen
    · simp only [hx, if_true]
      exact (ih seen).trans (List.sublist_cons_self x xs)
    · simp only [hx, if_false]
      exact (ih (x :: seen)).cons₂ x

/-- Helper: membership in the deduplicated list is membership in the input
minus the already-seen elements. -/
theorem mem_dedupFirstAux (l : List String) :
    ∀ seen x, x ∈ dedupFirstAux l seen ↔ x ∈ l ∧ x ∉ seen := by
  induction l with
  | nil => intro seen x; simp [dedupFirstAux]
  | cons y ys ih =>
    intro seen x
    unfold dedupFirstAux
    by_cases hy : y ∈ seen
    · simp only [hy, if_true]
      rw [ih seen x]
      constructor
      · rintro ⟨hm, hs⟩
        exact ⟨List.mem_cons_of_mem y hm, hs⟩
      · rintro ⟨hm, hs⟩
        rcases List.mem_cons.mp hm with e | e
        · subst e; exact absurd hy hs
        · exact ⟨e, hs⟩
    · simp only [hy, if_false]
      constructor
      · intro hm
        rcases List.mem_cons.mp hm with e | e
        · subst e; exact ⟨List.mem_cons_self _ _, hy⟩
        · rcases (ih (y :: seen) x).mp e with ⟨hm', hs'⟩
          refine ⟨List.mem_cons_of_mem y hm', fun hxs => hs' (List.mem_cons_of_mem y hxs)⟩
      · rintro ⟨hm, hs⟩
        rcases List.mem_cons.mp hm with e | e
        · subst e; exact List.mem_cons_self x _
        · by_cases hxy : x = y
          · subst hxy; exact List.mem_cons_self x _
          · exact List.mem_cons_of_mem y
              ((ih (y :: seen) x).mpr ⟨e, by
                intro hxs
                rcases List.mem_cons.mp hxs with e' | e'
                · exact hxy e'
                · exact hs e'⟩)

/-- Helper: the deduplicated list has no duplicates and avoids the seen
accumulator. -/
theorem nodup_dedupFirstAux (l : List String) :
    ∀ seen, (dedupFirstAux l seen).Nodup := by
  induction l with
  | nil => intro seen; simp [dedupFirstAux]
  | cons y ys ih =>
    intro seen
    unfold dedupFirstAux
    by_cases hy : y ∈ seen
    · simp only [hy, if_true]
      exact ih seen
    · simp only [hy, if_false]
      refine List.nodup_cons.mpr ⟨?_, ih (y :: seen)⟩
      intro hmem
      exact ((mem_dedupFirstAux ys (y :: seen) y).mp hmem).2 (List.mem_cons_self y seen)

/-- C8: `compose` returns the distinct directories containing at least one
library of a requested category, in the snapshot's original configured
directory order (a sublist of the snapshot's directory sequence), without
duplicates, containing exactly the matching directories; and it returns the
empty sequence, not an error, when no directory contains a matching
library. -/
theorem compose_contract (snap : CacheDirContent) (cats : List Category) :
    (compose snap cats).Sublist (snap.paths.map (fun e => e.fullpath))
    ∧ (compose snap cats).Nodup
    ∧ (∀ d, d ∈ compose snap cats ↔
        ∃ e ∈ snap.paths, e.fullpath = d ∧ ∃ c ∈ cats, hasLibOf e c = true)
    ∧ ((∀ e ∈ snap.paths, ∀ c ∈ cats, hasLibOf e c = false) → compose snap cats = []) := by
  refine ⟨?_, ?_, ?_, ?_⟩
  · unfold compose dedupFirst
    refine (dedupFirstAux_sublist _ []).trans ?_
    exact List.Sublist.map (fun e : HostLibraryPath => e.fullpath)
      (List.filter_sublist snap.paths)
  · exact nodup_dedupFirstAux _ []
  · intro d
    unfold compose dedupFirst
    rw [mem_dedupFirstAux]
    simp only [List.not_mem_nil, not_false_iff, and_true, List.mem_map, List.mem_filter]
    constructor
    · rintro ⟨e, ⟨hmem, hany⟩, hfp⟩
      rcases List.any_eq_true.mp hany with ⟨c, hc, hlib⟩
      exact ⟨e, hmem, hfp, c, hc, hlib⟩
    · rintro ⟨e, hmem, hfp, c, hc, hlib⟩
      exact ⟨e, ⟨hmem, List.any_eq_true.mpr ⟨c, hc, hlib⟩⟩, hfp⟩
  · intro h
    unfold compose dedupFirst
    have : snap.paths.filter (fun e => cats.any (hasLibOf e)) = [] := by
      rw [List.filter_eq_nil_iff]
      intro e hmem
      simp only [Bool.not_eq_true]
      rw [← Bool.not_eq_true]
      intro hany
      rcases List.any_eq_true.mp hany with ⟨c, hc, hlib⟩
      rw [h e hmem c hc] at hlib
      cases hlib
    rw [this]
    rfl

/-- Witness for C8: an all-empty snapshot composes to the empty sequence (not
an error) for a CUDA request, and a snapshot whose directories are /a, /b, /c
where only /a and /c contain GLX libraries composes to [/a, /c] for the GLX
request, preserving configured order and skipping /b. -/
theorem compose_contract_witness :
    compose ⟨[emptyEntry "/a"]⟩ [.CUDA] = []
    ∧ compose ⟨[⟨"/a", [⟨"l", "/a/l", 1, 2⟩], [], [], []⟩, emptyEntry "/b",
        ⟨"/c", [⟨"m", "/c/m", 4, 5⟩], [], [], []⟩]⟩ [.GLX] = ["/a", "/c"] :=
  ⟨(compose_contract ⟨[emptyEntry "/a"]⟩ [.CUDA]).2.2.2 (by decide), by decide⟩

/-- Helper: reading back one serialized library identity. -/
theorem readLib_enc (l : ResolvedLib) (r : List Record) :
    readLib (encLib l ++ r) = some (l, r) := rfl

/-- Helper: reading back a serialized run of library identities. -/
theorem readLibList_enc (ls : List ResolvedLib) :
    ∀ r, readLibList ls.length ((ls.map encLib).flatten ++ r) = some (ls, r) := by
  induction ls with
  | nil => intro r; rfl
  | cons l ls ih =>
    intro r
    have harg : (((l :: ls).map encLib).flatten ++ r)
        = encLib l ++ ((ls.map encLib).flatten ++ r) := by
      simp [List.append_assoc]
    rw [List.length_cons, harg]
    simp only [readLibList, readLib_enc, ih r]

/-- Helper: reading back a serialized counted list of library identities. -/
theorem readLibs_enc (ls : List ResolvedLib) (r : List Record) :
    readLibs (encLibs ls ++ r) = some (ls, r) := by
  have harg : encLibs ls ++ r = .nat ls.length :: ((ls.map encLib).flatten ++ r) := by
    simp [encLibs]
  rw [harg]
  simp only [readLibs, readNat, readLibList_enc ls r]

/-- Helper: reading back one serialized directory entry. -/
theorem readEntry_enc (e : HostLibraryPath) (r : List Record) :
    readEntry (encEntry e ++ r) = some (e, r) := by
  have harg : encEntry e ++ r = .str e.fullpath ::
      (encLibs e.glx ++ (encLibs e.egl ++ (encLibs e.cuda ++ (encLibs e.generic ++ r)))) := by
    simp [encEntry]
  rw [harg]
  simp only [readEntry, readStr, readLibs_enc]

/-- Helper: reading back a serialized run of directory entries. -/
theorem readEntryList_enc (es : List HostLibraryPath) :
    ∀ r, readEntryList es.length ((es.map encEntry).flatten ++ r) = some (es, r) := by
  induction es with
  | nil => intro r; rfl
  | cons e es ih =>
    intro r
    have harg : (((e :: es).map encEntry).flatten ++ r)
        = encEntry e ++ ((es.map encEntry).flatten ++ r) := by
      simp [List.append_assoc]
    rw [List.length_cons, harg]
    simp only [readEntryList, readEntry_enc, ih r]

/-- Helper: reading back a whole serialized snapshot. -/
theorem readSnap_enc (c : CacheDirContent) (r : List Record) :
    readSnap (encode c ++ r) = some (c, r) := by
  have harg : encode c ++ r = .nat cacheVersion ::
      .nat c.paths.length :: ((c.paths.map encEntry).flatten ++ r) := by
    simp [encode]
  rw [harg]
  simp only [readSnap, readNat, if_pos rfl, readEntryList_enc c.paths r]
  simp

/-- Helper: decoding inverts encoding. -/
theorem decode_encode (c : CacheDirContent) : decode (encode c) = some c := by
  have h := readSnap_enc c []
  rw [List.append_nil] at h
  simp [decode, h]

/-- C4: storing a snapshot produced by `scan` and loading it back yields the
original snapshot, with the directory order and the per-directory categorized
identity collections intact. -/
theorem cache_roundtrip (fs : FS) (dirs : List String) (old : Option (List Record)) :
    load (store (scan fs dirs) old) = .Loaded (scan fs dirs) := by
  simp [load, store, decode_encode]

/-- Helper: a successful numeric read is insensitive to extra trailing
records. -/
theorem readNat_ext {ts r ex : List Record} {v : Nat}
    (h : readNat ts = some (v, r)) : readNat (ts ++ ex) = some (v, r ++ ex) := by
  cases ts with
  | nil => simp [readNat] at h
  | cons t ts' =>
    cases t with
    | nat n =>
      simp only [readNat, Option.some.injEq, Prod.mk.injEq] at h
      simp only [List.cons_append, readNat, Option.some.injEq, Prod.mk.injEq]
      exact ⟨h.1, by rw [h.2]⟩
    | str s => simp [readNat] at h

/-- Helper: a successful string read is insensitive to extra trailing
records. -/
theorem readStr_ext {ts r ex : List Record} {v : String}
    (h : readStr ts = some (v, r)) : readStr (ts ++ ex) = some (v, r ++ ex) := by
  cases ts with
  | nil => simp [readStr] at h
  | cons t ts' =>
    cases t with
    | str s =>
      simp only [readStr, Option.some.injEq, Prod.mk.injEq] at h
      simp only [List.cons_append, readStr, Option.some.injEq, Prod.mk.injEq]
      exact ⟨h.1, by rw [h.2]⟩
    | nat n => simp [readStr] at h

/-- Helper: a successful library read is insensitive to extra trailing
records. -/
theorem readLib_ext {ts r ex : List Record} {l : ResolvedLib}
    (h : readLib ts = some (l, r)) : readLib (ts ++ ex) = some (l, r ++ ex) := by
  unfold readLib at h ⊢
  cases h1 : readStr ts with
  | none => rw [h1] at h; cases h
  | some p1 =>
    obtain ⟨a1, t1⟩ := p1
    rw [h1] at h
    rw [readStr_ext h1]
    simp only at h ⊢
    cases h2 : readStr t1 with
    | none => rw [h2] at h; cases h
    | some p2 =>
      obtain ⟨a2, t2⟩ := p2
      rw [h2] at h
      rw [readStr_ext h2]
      simp only at h ⊢
      cases h3 : readNat t2 with
      | none => rw [h3] at h; cases h
      | some p3 =>
        obtain ⟨a3, t3⟩ := p3
        rw [h3] at h
        rw [readNat_ext h3]
        simp only at h ⊢
        cases h4 : readNat t3 with
        | none => rw [h4] at h; cases h
        | some p4 =>
          obtain ⟨a4, t4⟩ := p4
          rw [h4] at h
          rw [readNat_ext h4]
          simp only [Option.some.injEq, Prod.mk.injEq] at h ⊢
          exact ⟨h.1, by rw [h.2]⟩

/-- Helper: a successful library-run read is insensitive to extra trailing
records. -/
theorem readLibList_ext (k : Nat) :
    ∀ {ts r ex : List Record} {ls : List ResolvedLib},
      readLibList k ts = some (ls, r) → readLibList k (ts ++ ex) = some (ls, r ++ ex) := by
  induction k with
  | zero =>
    intro ts r ex ls h
    simp only [readLibList, Option.some.injEq, Prod.mk.injEq] at h ⊢
    exact ⟨h.1, by rw [h.2]⟩
  | succ k ih =>
    intro ts r ex ls h
    unfold readLibList at h ⊢
    cases h1 : readLib ts with
    | none => rw [h1] at h; cases h
    | some p1 =>
      obtain ⟨l1, t1⟩ := p1
      rw [h1] at h
      rw [readLib_ext h1]
      simp only at h ⊢
      cases h2 : readLibList k t1 with
      | none => rw [h2] at h; cases h
      | some p2 =>
        obtain ⟨ls2, t2⟩ := p2
        rw [h2] at h
        rw [ih h2]
        simp only [Option.some.injEq, Prod.mk.injEq] at h ⊢
        exact ⟨h.1, by rw [h.2]⟩

/-- Helper: a successful counted-list read is insensitive to extra trailing
records. -/
theorem readLibs_ext {ts r ex : List Record} {ls : List ResolvedLib}
    (h : readLibs ts = some (ls, r)) : readLibs (ts ++ ex) = some (ls, r ++ ex) := by
  unfold readLibs at h ⊢
  cases h1 : readNat ts with
  | none => rw [h1] at h; cases h
  | some p1 =>
    obtain ⟨k, t1⟩ := p1
    rw [h1] at h
    rw [readNat_ext h1]
    simp only at h ⊢
    exact readLibList_ext k h

/-- Helper: a successful entry read is insensitive to extra trailing
records. -/
theorem readEntry_ext {ts r ex : List Record} {e : HostLibraryPath}
    (h : readEntry ts = some (e, r)) : readEntry (ts ++ ex) = some (e, r ++ ex) := by
  unfold readEntry at h ⊢
  cases h1 : readStr ts with
  | none => rw [h1] at h; cases h
  | some p1 =>
    obtain ⟨fp, t1⟩ := p1
    rw [h1] at h
    rw [readStr_ext h1]
    simp only at h ⊢
    cases h2 : readLibs t1 with
    | none => rw [h2] at h; cases h
    | some p2 =>
      obtain ⟨g, t2⟩ := p2
      rw [h2] at h
      rw [readLibs_ext h2]
      simp only at h ⊢
      cases h3 : readLibs t2 with
      | none => rw [h3] at h; cases h
      | some p3 =>
        obtain ⟨eg, t3⟩ := p3
        rw [h3] at h
        rw [readLibs_ext h3]
        simp only at h ⊢
        cases h4 : readLibs t3 with
        | none => rw [h4] at h; cases h
        | some p4 =>
          obtain ⟨cu, t4⟩ := p4
          rw [h4] at h
          rw [readLibs_ext h4]
          simp only at h ⊢
          cases h5 : readLibs t4 with
          | none => rw [h5] at h; cases h
          | some p5 =>
            obtain ⟨ge, t5⟩ := p5
            rw [h5] at h
            rw [readLibs_ext h5]
            simp only [Option.some.injEq, Prod.mk.injEq] at h ⊢
            exact ⟨h.1, by rw [h.2]⟩

/-- Helper: a successful entry-run read is insensitive to extra trailing
records. -/
theorem readEntryList_ext (k : Nat) :
    ∀ {ts r ex : List Record} {es : List HostLibraryPath},
      readEntryList k ts = some (es, r) → readEntryList k (ts ++ ex) = some (es, r ++ ex) := by
  induction k with
  | zero =>
    intro ts r ex es h
    simp only [readEntryList, Option.some.injEq, Prod.mk.injEq] at h ⊢
    exact ⟨h.1, by rw [h.2]⟩
  | succ k ih =>
    intro ts r ex es h
    unfold readEntryList at h ⊢
    cases h1 : readEntry ts with
    | none => rw [h1] at h; cases h
    | some p1 =>
      obtain ⟨e1, t1⟩ := p1
      rw [h1] at h
      rw [readEntry_ext h1]
      simp only at h ⊢
      cases h2 : readEntryList k t1 with
      | none => rw [h2] at h; cases h
      | some p2 =>
        obtain ⟨es2, t2⟩ := p2
        rw [h2] at h
        rw [ih h2]
        simp only [Option.some.injEq, Prod.mk.injEq] at h ⊢
        exact ⟨h.1, by rw [h.2]⟩

/-- Helper: a successful snapshot read is insensitive to extra trailing
records. -/
theorem readSnap_ext {ts r ex : List Record} {c : CacheDirContent}
    (h : readSnap ts = some (c, r)) : readSnap (ts ++ ex) = some (c, r ++ ex) := by
  unfold readSnap at h ⊢
  cases h1 : readNat ts with
  | none => rw [h1] at h; cases h
  | some p1 =>
    obtain ⟨v, t1⟩ := p1
    rw [h1] at h
    rw [readNat_ext h1]
    simp only at h ⊢
    by_cases hv : v = cacheVersion
    · rw [if_pos hv] at h
      rw [if_pos hv]
      cases h2 : readNat t1 with
      | none => rw [h2] at h; cases h
      | some p2 =>
        obtain ⟨k, t2⟩ := p2
        rw [h2] at h
        rw [readNat_ext h2]
        simp only at h ⊢
        cases h3 : readEntryList k t2 with
        | none => rw [h3] at h; cases h
        | some p3 =>
          obtain ⟨es, t3⟩ := p3
          rw [h3] at h
          rw [readEntryList_ext k h3]
          simp only [Option.some.injEq, Prod.mk.injEq] at h ⊢
          exact ⟨h.1, by rw [h.2]⟩
    · rw [if_neg hv] at h
      cases h

/-- Helper: no strict leading part of a serialized snapshot decodes
successfully. -/
theorem decode_take_none (c : CacheDirContent) (k : Nat)
    (hk : k < (encode c).length) : decode ((encode c).take k) = none := by
  cases hd : decode ((encode c).take k) with
  | none => rfl
  | some c' =>
    exfalso
    have hr : readSnap ((encode c).take k) = some (c', []) := by
      unfold decode at hd
      cases hs : readSnap ((encode c).take k) with
      | none => rw [hs] at hd; cases hd
      | some p =>
        obtain ⟨c'', rem⟩ := p
        rw [hs] at hd
        cases rem with
        | nil =>
          simp only [Option.some.injEq] at hd
          rw [hd]
        | cons a l => cases hd
    have hext := @readSnap_ext ((encode c).take k) [] ((encode c).drop k) c' hr
    rw [List.take_append_drop] at hext
    have hfull : readSnap (encode c) = some (c, []) := by
      have h := readSnap_enc c []
      rw [List.append_nil] at h
      exact h
    rw [hfull] at hext
    simp only [Option.some.injEq, Prod.mk.injEq, List.nil_append] at hext
    have hdrop : (encode c).drop k = [] := hext.2.symm
    have hlen : (encode c).length ≤ k := by
      have := congrArg List.length hdrop
      simp only [List.length_drop, List.length_nil] at this
      omega
    omega

/-- C5: a missing cache file loads as `Absent`; any cache content that does
not parse — in particular any strict leading part of a stored snapshot, as
left by a truncated or partial write — also loads as `Absent`, observably
identical to the missing-file case; no other error is ever produced. -/
theorem corrupt_cache_absent :
    (∀ ts : List Record, decode ts = none → load (some ts) = .Absent)
    ∧ load none = .Absent
    ∧ (∀ (c : CacheDirContent) (k : Nat), k < (encode c).length →
        load (some ((encode c).take k)) = .Absent) := by
  refine ⟨?_, rfl, ?_⟩
  · intro ts h
    simp [load, h]
  · intro c k hk
    simp [load, decode_take_none c k hk]

/-- Witness for C5: a cache file holding a wrong version tag and a one-record
truncation of a stored empty snapshot both load as `Absent`, as does a
missing cache file. -/
theorem corrupt_cache_absent_witness :
    load (some [Record.nat 999]) = .Absent
    ∧ load none = .Absent
    ∧ load (some ((encode ⟨[]⟩).take 1)) = .Absent :=
  ⟨corrupt_cache_absent.1 [Record.nat 999] (by decide),
    corrupt_cache_absent.2.1,
    corrupt_cache_absent.2.2 ⟨[]⟩ 1 (by decide)⟩

/-- Helper: the boolean new-file re-listing check of one entry agrees with its
propositional reading. -/
theorem noNewFiles_eq_true_iff (fs : FS) (e : HostLibraryPath) :
    noNewFiles fs e = true ↔
      (∀ files, fs.listDir e.fullpath = some files →
        ∀ f ∈ files, f.readable = true → (classify f.name).isSome = true →
          (e.fullpath ++ "/" ++ f.name) ∈ recordedFullpaths e) := by
  unfold noNewFiles
  cases h : fs.listDir e.fullpath with
  | none =>
    simp
  | some files =>
    simp only [List.all_eq_true, Option.some.injEq]
    constructor
    · intro hall files' hf'
      subst hf'
      intro f hf hr hc
      have hor := hall f hf
      rw [Bool.or_eq_true, Bool.or_eq_true, Bool.not_eq_true'] at hor
      rcases hor with (h1 | h2) | h3
      · rw [hr] at h1
        exact absurd h1 (by decide)
      · rw [Option.isNone_iff_eq_none] at h2
        rw [h2] at hc
        simp at hc
      · exact List.mem_of_elem_eq_true h3
    · intro hp f hf
      rw [Bool.or_eq_true, Bool.or_eq_true, Bool.not_eq_true']
      by_cases hr : f.readable = true
      · by_cases hc : (classify f.name).isSome = true
        · exact Or.inr (List.elem_eq_true_of_mem (hp files rfl f hf hr hc))
        · refine Or.inl (Or.inr ?_)
          rw [Option.isNone_iff_eq_none]
          cases hcl : classify f.name with
          | none => rfl
          | some c =>
            rw [hcl] at hc
            simp at hc
      · exact Or.inl (Or.inl (by simpa using hr))

/-- Helper: the boolean condition of `validate` agrees with the conjunction of
the three freshness conditions. -/
theorem validate_cond_iff (fs : FS) (snap : CacheDirContent) (dirs : List String) :
    (decide (snap.paths.map (fun e => e.fullpath) = dirs)
      && snap.paths.all (fun e => (entryLibs e).all (libStillMatches fs e.fullpath))
      && snap.paths.all (noNewFiles fs)) = true
    ↔ (dirsUnchanged snap dirs ∧ allRecordedMatch fs snap ∧ noUntrackedNewFiles fs snap) := by
  simp only [Bool.and_eq_true, decide_eq_true_eq, List.all_eq_true]
  unfold dirsUnchanged allRecordedMatch noUntrackedNewFiles
  constructor
  · rintro ⟨⟨ha, hb⟩, hc⟩
    exact ⟨ha, hb, fun e he => (noNewFiles_eq_true_iff fs e).mp (hc e he)⟩
  · rintro ⟨ha, hb, hc⟩
    exact ⟨⟨ha, hb⟩, fun e he => (noNewFiles_eq_true_iff fs e).mpr (hc e he)⟩

/-- C3: `validate` answers `Fresh` exactly when (a) the configured directory
sequence is unchanged and in the same order as recorded in the snapshot, (b)
every recorded identity still metadata-matches the file on disk, and (c) no
configured directory contains an unrecorded file that classifies into a
tracked category; any violation of (a), (b) or (c) yields `Stale`. -/
theorem validate_fresh_iff (fs : FS) (snap : CacheDirContent) (dirs : List String) :
    (validate fs snap dirs = VResult.Fresh ↔
      dirsUnchanged snap dirs ∧ allRecordedMatch fs snap ∧ noUntrackedNewFiles fs snap)
    ∧ (¬(dirsUnchanged snap dirs ∧ allRecordedMatch fs snap ∧ noUntrackedNewFiles fs snap)
        → validate fs snap dirs = VResult.Stale) := by
  have hiff : validate fs snap dirs = VResult.Fresh ↔
      dirsUnchanged snap dirs ∧ allRecordedMatch fs snap ∧ noUntrackedNewFiles fs snap := by
    unfold validate
    split
    case isTrue hc =>
      exact iff_of_true rfl ((validate_cond_iff fs snap dirs).mp hc)
    case isFalse hc =>
      refine iff_of_false (fun h => ?_) (fun hconj => hc ((validate_cond_iff fs snap dirs).mpr hconj))
      cases h
  refine ⟨hiff, fun h => ?_⟩
  cases hv : validate fs snap dirs with
  | Fresh => exact absurd (hiff.mp hv) h
  | Stale => rfl

/-- Witness for C3: an empty snapshot validated against a changed directory
list is `Stale`, and against the unchanged (empty) directory list is
`Fresh`. -/
theorem validate_fresh_iff_witness :
    validate ⟨[]⟩ ⟨[]⟩ ["/z"] = VResult.Stale ∧ validate ⟨[]⟩ ⟨[]⟩ [] = VResult.Fresh := by
  constructor
  · apply (validate_fresh_iff ⟨[]⟩ ⟨[]⟩ ["/z"]).2
    intro h
    have ha := h.1
    simp [dirsUnchanged] at ha
  · apply (validate_fresh_iff ⟨[]⟩ ⟨[]⟩ []).1.mpr
    refine ⟨rfl, ?_, ?_⟩
    · intro e he
      exact absurd he (List.not_mem_nil e)
    · intro e he
      exact absurd he (List.not_mem_nil e)

end NixGlHost
